import Mathlib

/-! cpp-std-test: a verification development

A shallow embedding of the functions and test bodies of `src/cpp11.cpp` and
`src/cpp14.cpp`.

* C++ `int` is a 32-bit two's complement integer: values are `Int`, and every
  arithmetic result is brought back into range by `wrapInt`.
* `std::initializer_list<int>`, `std::vector<int>` and built-in `int` arrays
  are `List Int` (the sequence of their elements, in iteration order).
-/

namespace CppStdTest

/-! ## Machine integers -/

/-- Smallest value of the C++ type `int` (32 bits). -/
def INT_MIN : Int := -2147483648

/-- Largest value of the C++ type `int` (32 bits). -/
def INT_MAX : Int := 2147483647

/-- The value is representable in `int`. -/
def isInt (x : Int) : Prop := INT_MIN ≤ x ∧ x ≤ INT_MAX

instance (x : Int) : Decidable (isInt x) := by
  unfold isInt; exact inferInstance

/-- Reduction of a mathematical integer to the `int` with the same residue
modulo `2^32` (two's complement wrap-around; also the conversion of a wider
integer type to `int`). -/
def wrapInt (x : Int) : Int := (x + 2147483648) % 4294967296 - 2147483648

/-! ## `std::accumulate`, `sum` (cpp11.cpp, lines 129-158) -/

/-- `std::accumulate(first, last, init)` at element type `int`:
`for (; first != last; ++first) init = init + *first; return init;`. -/
def accumulate : List Int → Int → Int
  | [], init => init
  | x :: xs, init => accumulate xs (wrapInt (init + x))

namespace VariadicTemplates

/-- The variadic template
`auto sum(const First first, const Args... args) -> decltype(first)`
instantiated at `int`: `values = {first, args...}` and
`std::accumulate(values.begin(), values.end(), First{0})`. -/
def sum (first : Int) (args : List Int) : Int :=
  let values := first :: args
  accumulate values 0

end VariadicTemplates

namespace InitializerLists

/-- The loop `for (auto& e : list) { total += e; }` of
`int sum(const std::initializer_list<int>& list)`, from the current `total`. -/
def sumLoop : List Int → Int → Int
  | [], total => total
  | e :: rest, total => sumLoop rest (wrapInt (total + e))

/-- The function `int sum(const std::initializer_list<int>& list)`:
`int total = 0;`, the loop, `return total;`. -/
def sum (list : List Int) : Int := sumLoop list 0

end InitializerLists

/-- The running totals of a list: the exact sums of its non-empty prefixes. -/
def runningTotals : List Int → Int → List Int
  | [], _ => []
  | e :: rest, total => (total + e) :: runningTotals rest (total + e)

/-! ## `CountTwos` (cpp11.cpp, lines 882-887) -/

/-- `std::count_if(first, last, pred)`:
`for (; first != last; ++first) if (pred(*first)) ++ret; return ret;`, from
the current `ret`. The counter has the iterator's `difference_type`, which
is wide enough for the length of any sequence in memory, so it is not
wrapped. -/
def count_if (pred : Int → Bool) : List Int → Int → Int
  | [], ret => ret
  | item :: rest, ret => count_if pred rest (if pred item then ret + 1 else ret)

/-- The template `int CountTwos(const T& container)`: `std::count_if` over
`std::begin(container)` .. `std::end(container)` with the lambda
`[](int item) { return item == 2; }`, the count converted to the return
type `int`. -/
def CountTwos (container : List Int) : Int :=
  wrapInt (count_if (fun item => item == 2) container 0)

/-! ## `factorial` (cpp14.cpp, lines 116-122) -/

/-- The function `constexpr int factorial(int n)`:
`if (n <= 1) return 1; else return n * factorial(n - 1);`.
The recursion is well founded: the argument decreases towards `1`. -/
def factorial (n : Int) : Int :=
  if n ≤ 1 then 1 else wrapInt (n * factorial (n - 1))
termination_by (n - 1).toNat
decreasing_by omega

/-! ## Types, references and value categories (cpp11.cpp, lines 22-25, 61-75, 692-696)

The part of the C++ type system that the tests on move semantics and
forwarding references exercise: object types with their cv-qualifier and an
optional reference qualifier, the reference-collapsing rules, the value
category of an expression, and template argument deduction for a forwarding
reference. -/

/-- The object (non-reference) types that occur in the tests. -/
inductive ObjType
  | int
  | BB
  | A10
  | Foo
  | vectorInt
  | uniquePtr
  deriving DecidableEq, Repr

/-- The type is a class type (all but `int`). -/
def ObjType.isClass : ObjType → Bool
  | .int => false
  | .BB => true
  | .A10 => true
  | .Foo => true
  | .vectorInt => true
  | .uniquePtr => true

/-- The cv-qualifier of an object type: none, `const`, `volatile` or
`const volatile`. -/
inductive CV
  | none
  | const
  | volatile
  | constVolatile
  deriving DecidableEq, Repr

/-- The qualifier includes `const`. -/
def CV.isConst : CV → Bool
  | .none => false
  | .const => true
  | .volatile => false
  | .constVolatile => true

/-- The qualifier includes `volatile`. -/
def CV.isVolatile : CV → Bool
  | .none => false
  | .const => false
  | .volatile => true
  | .constVolatile => true

/-- The reference qualifier of a type: none (`T`), `T&` or `T&&`. -/
inductive Ref
  | none
  | lref
  | rref
  deriving DecidableEq, Repr

/-- A C++ type: an object type, its cv-qualifier, and the reference
qualifier (`const int&` is `int`, `const`, `lref`). -/
structure CppType where
  obj : ObjType
  cv : CV
  ref : Ref
  deriving DecidableEq, Repr

/-- The type `T &`, by the collapsing rules in the source:
`T& &` becomes `T&`, `T&& &` becomes `T&`. -/
def addLRef (T : CppType) : CppType :=
  match T.ref with
  | .none => ⟨T.obj, T.cv, .lref⟩
  | .lref => ⟨T.obj, T.cv, .lref⟩
  | .rref => ⟨T.obj, T.cv, .lref⟩

/-- The type `T &&`, by the collapsing rules in the source:
`T& &&` becomes `T&`, `T&& &&` becomes `T&&`. -/
def addRRef (T : CppType) : CppType :=
  match T.ref with
  | .none => ⟨T.obj, T.cv, .rref⟩
  | .lref => ⟨T.obj, T.cv, .lref⟩
  | .rref => ⟨T.obj, T.cv, .rref⟩

/-- The type `std::remove_reference<T>::type`. -/
def remove_reference (T : CppType) : CppType := ⟨T.obj, T.cv, .none⟩

/-- The value category of an expression. -/
inductive ValueCategory
  | lvalue
  | xvalue
  | prvalue
  deriving DecidableEq, Repr

/-- An expression is an rvalue when it is an xvalue or a prvalue. -/
def ValueCategory.isRvalue : ValueCategory → Bool
  | .lvalue => false
  | .xvalue => true
  | .prvalue => true

/-- The value category of a call to a function of the given return type:
an lvalue for `T&`, an xvalue for `T&&`, a prvalue for `T`. -/
def callCategory (returnType : CppType) : ValueCategory :=
  match returnType.ref with
  | .lref => .lvalue
  | .rref => .xvalue
  | .none => .prvalue

/-- The template argument deduced for `T` from a parameter `T&&` (a
forwarding reference) and an argument of type `cv A`: `cv A&` for an lvalue
argument, `cv A` for an rvalue argument. -/
def deduceForwarding (A : ObjType) (cv : CV) (c : ValueCategory) : CppType :=
  match c with
  | .lvalue => ⟨A, cv, .lref⟩
  | .xvalue => ⟨A, cv, .none⟩
  | .prvalue => ⟨A, cv, .none⟩

/-- Return type of `my_move` (the definition of `std::move`):
`typename std::remove_reference<T>::type&&`. -/
def my_move (T : CppType) : CppType := addRRef (remove_reference T)

/-- Return type of `my_forward` (the definition of `std::forward`): `T&&`. -/
def my_forward (T : CppType) : CppType := addRRef T

/-- Return type of `template <typename T> decltype(auto) f(T&& t)`, whose
body is `return std::forward<T>(t);`: `decltype(auto)` takes the type of the
returned call expression, which is the return type of `std::forward<T>`. -/
def f (T : CppType) : CppType := my_forward T

/-- The argument expressions of the tests: a literal or a temporary `A{}`
(of a possibly cv-qualified `A`), the name of a variable with its declared
type, `std::move(e)` and `f(e)`. -/
inductive Expr
  | temporary (A : ObjType) (cv : CV)
  | variable (declared : CppType)
  | move (e : Expr)
  | callF (e : Expr)
  deriving Repr

/-- The object type of an expression. All four forms keep the object type of
their operand. -/
def Expr.obj : Expr → ObjType
  | .temporary A _ => A
  | .variable declared => declared.obj
  | .move e => e.obj
  | .callF e => e.obj

/-- The cv-qualifier of the type of an expression. A prvalue of a non-class
type has no cv-qualifier; `std::move(e)` and `f(e)` keep the one of `e`. -/
def Expr.cv : Expr → CV
  | .temporary A cv => if A.isClass then cv else .none
  | .variable declared => declared.cv
  | .move e => e.cv
  | .callF e => e.cv

/-- The value category of an expression: a literal or a temporary `A{}` is a
prvalue; the name of a variable is an lvalue whatever its declared type;
`std::move(e)` and `f(e)` are calls, whose category follows the return type
of the instantiated template. -/
def Expr.category : Expr → ValueCategory
  | .temporary _ _ => .prvalue
  | .variable _ => .lvalue
  | .move e => callCategory (my_move (deduceForwarding e.obj e.cv e.category))
  | .callF e => callCategory (f (deduceForwarding e.obj e.cv e.category))

/-- The type `decltype(f(e))` of the call `f(e)`: the return type of the
instantiation of `f` at the `T` deduced from the argument. -/
def typeOfCallF (e : Expr) : CppType := f (deduceForwarding e.obj e.cv e.category)

/-- The function `is_same_type<T>(v)`, which compares
`std::type_index(typeid(v))` with `std::type_index(typeid(T))`: `typeid`
ignores the reference qualifier and the top-level cv-qualifier of its
operand. -/
def is_same_type (T : CppType) (v : CppType) : Bool :=
  decide (v.obj = T.obj)

/-- The constructors of `struct A10`. -/
inductive A10Ctor
  | default
  | copy
  | move
  deriving DecidableEq, Repr

/-- Overload resolution for `A10{arg}`, for an initializer of type `cv A`
and value category `c`, between `A10(const A10&)` and `A10(A10&&)`.
The parameter `const A10&` binds to an `A10` or a `const A10`, lvalue or
rvalue; the parameter `A10&&` binds to an rvalue `A10` that is not `const`,
and is preferred for it. Neither binds to a `volatile` object or to an
object of another type: the initialization does not compile (`none`). -/
def A10Ctor.select (A : ObjType) (cv : CV) (c : ValueCategory) : Option A10Ctor :=
  if A ≠ .A10 then none
  else if cv.isVolatile then none
  else
    match c with
    | .lvalue => some .copy
    | .xvalue => if cv.isConst then some .copy else some .move
    | .prvalue => if cv.isConst then some .copy else some .move

/-- What a constructor of `A10` writes to `std::cout`. -/
def A10Ctor.output : A10Ctor → List String
  | .default => []
  | .copy => ["copied"]
  | .move => ["moved"]

/-- The template `A10 wrapper(T&& arg)`, whose body is
`return A10{std::forward<T>(arg)};`: the constructor of `A10` that the call
`wrapper(arg)` runs, `none` when the call does not compile. The initializer
`std::forward<T>(arg)` has the type and category of the return type `T&&`. -/
def wrapper (arg : Expr) : Option A10Ctor :=
  let T := deduceForwarding arg.obj arg.cv arg.category
  let forwarded := my_forward T
  A10Ctor.select forwarded.obj forwarded.cv (callCategory forwarded)

/-- The checks of `SUBCASE("template")` of `TEST_CASE("Forwarding references")`,
in source order. -/
def forwardingTemplateChecks : List Bool :=
  let x : Expr := .variable ⟨.int, .none, .none⟩
  let y : Expr := .variable ⟨.int, .none, .lref⟩
  let z : Expr := .variable ⟨.int, .none, .rref⟩
  [ is_same_type ⟨.int, .none, .rref⟩ (typeOfCallF (.temporary .int .none)),
    is_same_type ⟨.int, .none, .lref⟩ (typeOfCallF x),
    is_same_type ⟨.int, .none, .lref⟩ (typeOfCallF y),
    is_same_type ⟨.int, .none, .rref⟩ (my_move (deduceForwarding z.obj z.cv z.category)),
    is_same_type ⟨.int, .none, .lref⟩ (typeOfCallF z),
    is_same_type ⟨.int, .none, .rref⟩ (typeOfCallF (.move z)),
    is_same_type ⟨.BB, .none, .rref⟩ (typeOfCallF (.temporary .BB .none)) ]

/-- The body of `TEST_CASE("std::forward")`: the output of
`wrapper(A10{}); A10 a; wrapper(a); wrapper(std::move(a));`, `none` if one
of the calls does not compile. The default constructor runs for `A10{}` and
for `a`. -/
def stdForwardTest : Option (List String) :=
  let a : Expr := .variable ⟨.A10, .none, .none⟩
  match wrapper (.temporary .A10 .none), wrapper a, wrapper (.move a) with
  | some first, some second, some third =>
    some (A10Ctor.default.output ++ first.output ++ A10Ctor.default.output ++
      second.output ++ third.output)
  | _, _, _ => none

/-! ## `std::vector<int>` and its move constructor (cpp11.cpp, lines 27-34) -/

/-- A `std::vector<int>`: the sequence of its elements. -/
structure VectorInt where
  elems : List Int
  deriving DecidableEq, Repr

/-- The member `size()`. -/
def VectorInt.size (v : VectorInt) : Nat := v.elems.length

/-- The member `empty()`. -/
def VectorInt.empty (v : VectorInt) : Bool := v.elems.isEmpty

/-- The initialization `std::vector<int> dst = init;`, where the expression
`init` has the value category `c` and denotes the vector `src`. The result
is the pair of `src` after the initialization and of `dst`. An lvalue
selects the copy constructor, which leaves `src` as it is; an rvalue selects
the move constructor, with which `dst` takes over the elements of `src`
and `src` is left empty. -/
def VectorInt.construct (c : ValueCategory) (src : VectorInt) : VectorInt × VectorInt :=
  match c with
  | .lvalue => (src, ⟨src.elems⟩)
  | .xvalue => (⟨[]⟩, ⟨src.elems⟩)
  | .prvalue => (⟨[]⟩, ⟨src.elems⟩)

/-- The variables and the outcomes of the checks at the end of
`SUBCASE("std::move")`. -/
structure MoveSubcase where
  vec : VectorInt
  vec1 : VectorInt
  checks : List Bool
  deriving Repr

/-- The body of `SUBCASE("std::move")`, for a vector `vec` of any initial
elements (the test has `{1,2,3,4}`):
`CHECK(vec.size() == 4); std::vector<int> vec1 = std::move(vec);
CHECK(vec.empty()); CHECK(vec1.size() == 4);`. -/
def moveSubcase (initial : List Int) : MoveSubcase :=
  let vec : VectorInt := ⟨initial⟩
  let check1 := vec.size == 4
  let moved := VectorInt.construct (Expr.move (.variable ⟨.vectorInt, .none, .none⟩)).category vec
  let vec := moved.1
  let vec1 := moved.2
  let check2 := vec.empty
  let check3 := vec1.size == 4
  ⟨vec, vec1, [check1, check2, check3]⟩

/-! ## `std::unique_ptr` (cpp11.cpp, lines 36-43, 380-385, 743-762) -/

/-- The `struct Foo` of the source, with its one data member. -/
structure Foo where
  foo : Int
  deriving DecidableEq, Repr

/-- A `std::unique_ptr<T>`: the stored pointer, `none` for `nullptr`. -/
structure UniquePtr where
  get : Option Nat
  deriving DecidableEq, Repr

/-- The member `release()`: the pointer after the call, and the returned
address. -/
def UniquePtr.release (p : UniquePtr) : UniquePtr × Option Nat :=
  (⟨none⟩, p.get)

/-- The move constructor `std::unique_ptr<T> q{std::move(p)}`: `q` stores
`p.release()`. The result is `p` after the move, and `q`. -/
def UniquePtr.moveConstruct (p : UniquePtr) : UniquePtr × UniquePtr :=
  let released := p.release
  (released.1, ⟨released.2⟩)

/-- The initialization `std::unique_ptr<T> q = init;` for an initializer of
value category `c` that denotes `p`: the copy constructor is deleted, so an
lvalue initializer does not compile (`none`); an rvalue selects the move
constructor. -/
def UniquePtr.construct (c : ValueCategory) (p : UniquePtr) : Option (UniquePtr × UniquePtr) :=
  match c with
  | .lvalue => none
  | .xvalue => some p.moveConstruct
  | .prvalue => some p.moveConstruct

/-- The integer nearest to a rational, the even one of the two at a tie. -/
def roundHalfEven (q : ℚ) : ℤ :=
  let below := ⌊q⌋
  let rest := q - below
  if rest < 1 / 2 then below
  else if 1 / 2 < rest then below + 1
  else if below % 2 = 0 then below
  else below + 1

/-- The binary exponent at which a rational is represented in binary64: the
`e` with `2^e ≤ |q| < 2^(e+1)`, and `-1022` in the subnormal range. -/
def exponent (q : ℚ) : ℤ := max (Int.log 2 |q|) (-1022)

/-- The `double` nearest to a rational (53 significant bits, ties to even):
the multiple of `2^(e-52)` nearest to it. -/
def roundDouble (q : ℚ) : ℚ :=
  let ulp : ℚ := 2 ^ (exponent q - 52)
  roundHalfEven (q / ulp) * ulp

/-- Smallest value of the C++ type `long long` (64 bits). -/
def LLONG_MIN : Int := -9223372036854775808

/-- Largest value of the C++ type `long long` (64 bits). -/
def LLONG_MAX : Int := 9223372036854775807

/-- The integer nearest to a rational, the one away from zero at a tie. -/
def roundHalfAway (q : ℚ) : ℤ :=
  if 0 ≤ q then ⌊q + 1 / 2⌋ else -⌊-q + 1 / 2⌋

/-- The function `std::llround`: the nearest integer, halfway cases away from
zero; `none` when that integer is outside the range of `long long`, where
the standard leaves the result unspecified. -/
def llround (x : ℚ) : Option Int :=
  let rounded := roundHalfAway x
  if LLONG_MIN ≤ rounded ∧ rounded ≤ LLONG_MAX then some rounded else none

/-- The literal operator
`long long operator "" _celsius(unsigned long long tempCelsius)`, whose body
is `return std::llround(tempCelsius * 1.8 + 32);`: the operand is converted
to `double`, `1.8` is the `double` nearest to 9/5, `32` is converted to
`double`, and the product and the sum are each rounded to `double` (two
separate operations, not a fused multiply-add). -/
def _celsius (tempCelsius : Nat) : Option Int :=
  llround (roundDouble (roundDouble (roundDouble tempCelsius * roundDouble (9 / 5))
    + roundDouble 32))

/-! ## Lemmas on machine integers -/

theorem wrapInt_of_isInt {x : Int} (h : isInt x) : wrapInt x = x := by
  unfold isInt INT_MIN INT_MAX at h
  unfold wrapInt
  omega

theorem wrapInt_add_wrapInt (a b : Int) : wrapInt (wrapInt a + b) = wrapInt (a + b) := by
  unfold wrapInt
  omega

theorem isInt_wrapInt (x : Int) : isInt (wrapInt x) := by
  unfold isInt INT_MIN INT_MAX wrapInt
  omega

/-! ## Initializer-list `sum` -/

theorem sumLoop_exact (list : List Int) :
    ∀ total : Int, (∀ r ∈ runningTotals list total, isInt r) →
      InitializerLists.sumLoop list total = total + list.sum := by
  induction list with
  | nil => intro total _; simp [InitializerLists.sumLoop]
  | cons e rest ih =>
    intro total h
    have he : isInt (total + e) := h _ (by simp [runningTotals])
    have hrest : ∀ r ∈ runningTotals rest (total + e), isInt r := fun r hr =>
      h r (by simp [runningTotals, hr])
    simp only [InitializerLists.sumLoop, wrapInt_of_isInt he, ih _ hrest, List.sum_cons]
    ring

/-- C4: for every initializer list of ints whose running totals all fit in
`int`, `sum(list)` is the arithmetic sum of the elements; `sum({}) == 0` and
`sum({1, 2, 3}) == 6`. -/
theorem C4_sum_initializer_list (list : List Int)
    (h : ∀ r ∈ runningTotals list 0, isInt r) :
    InitializerLists.sum list = list.sum ∧
      InitializerLists.sum [] = 0 ∧ InitializerLists.sum [1, 2, 3] = 6 := by
  refine ⟨?_, by decide, by decide⟩
  have := sumLoop_exact list 0 h
  simpa [InitializerLists.sum] using this

/-- C4 at the list `{2147483647, -1, 1}` of the running totals
`2147483647, 2147483646, 2147483647`. -/
theorem C4_sum_initializer_list_witness :
    (∀ r ∈ runningTotals [2147483647, -1, 1] 0, isInt r) ∧
      InitializerLists.sum [2147483647, -1, 1] = 2147483647 :=
  ⟨by decide, (C4_sum_initializer_list [2147483647, -1, 1] (by decide)).1⟩

/-! ## Variadic `sum` -/

theorem accumulate_cons (x : Int) (xs : List Int) (init : Int) :
    accumulate (x :: xs) init = wrapInt (init + (x :: xs).sum) := by
  induction xs generalizing x init with
  | nil => simp [accumulate]
  | cons y ys ih =>
    rw [accumulate, ih, wrapInt_add_wrapInt, List.sum_cons, List.sum_cons, List.sum_cons]
    congr 1
    ring

theorem foldl_add_eq (xs : List Int) :
    ∀ init : Int, xs.foldl (fun acc a => acc + a) init = init + xs.sum := by
  induction xs with
  | nil => intro init; simp
  | cons x xs ih => intro init; rw [List.foldl_cons, ih, List.sum_cons, add_assoc]

/-- C5: for every non-empty pack of ints `first, args...` whose total fits in
`int`, `sum(first, args...)` is `first` plus the sum of `args`, which is the
accumulation of all arguments from `0`; `sum(1,2,3,4,5) == 15`,
`sum(1,2,3) == 6`, and `sum(x) == x` for a single `int` argument. -/
theorem C5_sum_variadic (first : Int) (args : List Int)
    (h : isInt (first + args.sum)) :
    VariadicTemplates.sum first args = first + args.sum ∧
      VariadicTemplates.sum first args = (first :: args).foldl (fun acc a => acc + a) 0 ∧
      VariadicTemplates.sum 1 [2, 3, 4, 5] = 15 ∧
      VariadicTemplates.sum 1 [2, 3] = 6 ∧
      (∀ x : Int, isInt x → VariadicTemplates.sum x [] = x) := by
  have key : VariadicTemplates.sum first args = first + args.sum := by
    unfold VariadicTemplates.sum
    rw [accumulate_cons, List.sum_cons, zero_add, wrapInt_of_isInt h]
  refine ⟨key, ?_, by decide, by decide, ?_⟩
  · rw [key, foldl_add_eq, List.sum_cons, zero_add]
  · intro x hx
    unfold VariadicTemplates.sum
    rw [accumulate_cons, List.sum_cons, List.sum_nil, zero_add, add_zero, wrapInt_of_isInt hx]

/-- C5 at `sum(2147483647, -7, 7, -2147483647)`, of total `0`. -/
theorem C5_sum_variadic_witness :
    isInt (2147483647 + [(-7 : Int), 7, -2147483647].sum) ∧
      VariadicTemplates.sum 2147483647 [-7, 7, -2147483647] = 0 :=
  ⟨by decide, (C5_sum_variadic 2147483647 [-7, 7, -2147483647] (by decide)).1⟩

/-! ## `CountTwos` -/

theorem count_if_eq (pred : Int → Bool) (xs : List Int) :
    ∀ ret : Int, count_if pred xs ret = ret + (xs.countP pred : Int) := by
  induction xs with
  | nil => intro ret; simp [count_if]
  | cons x xs ih =>
    intro ret
    rw [count_if, ih, List.countP_cons]
    by_cases hp : pred x = true
    · simp only [hp, if_true]; push_cast; ring
    · simp only [hp, if_false]; push_cast; ring

theorem count_if_two (xs : List Int) :
    count_if (fun item => item == 2) xs 0 = (xs.count 2 : Int) := by
  rw [count_if_eq, zero_add, List.count]

/-- C6, as stated, fails: for a container of `2^31` elements all equal to 2
the count `2147483648` does not fit in the return type `int`, and
`CountTwos` returns `-2147483648`, which is neither the number of elements
equal to 2 nor between 0 and the length. -/
theorem C6_CountTwos_counterexample :
    CountTwos (List.replicate 2147483648 2) = -2147483648 ∧
      (((List.replicate 2147483648 (2 : Int)).count 2 : Nat) : Int) = 2147483648 ∧
      CountTwos (List.replicate 2147483648 2) ≠
        (((List.replicate 2147483648 (2 : Int)).count 2 : Nat) : Int) ∧
      ¬ (0 ≤ CountTwos (List.replicate 2147483648 2)) := by
  have hc : CountTwos (List.replicate 2147483648 2) = -2147483648 := by
    unfold CountTwos
    rw [count_if_two, List.count_replicate_self]
    decide
  rw [hc, List.count_replicate_self]
  decide

/-- C6, amended: for every container of ints in which the number of elements
equal to 2 fits in `int`, `CountTwos(container)` is exactly that number;
it is 0 for the empty container, lies between 0 and the length, is the same
for every reordering of the container, and is 2 and 1 on the two containers
of the test. -/
theorem C6_CountTwos (container : List Int)
    (h : ((container.count 2 : Nat) : Int) ≤ INT_MAX) :
    CountTwos container = (container.count 2 : Nat) ∧
      CountTwos [] = 0 ∧
      (0 ≤ CountTwos container ∧ CountTwos container ≤ (container.length : Nat)) ∧
      (∀ reordered : List Int, container.Perm reordered →
        CountTwos reordered = CountTwos container) ∧
      CountTwos [2, 2, 43, 435, 4543, 534] = 2 ∧
      CountTwos [2, 43, 45, 435, 32, 32, 32, 32] = 1 := by
  have key : CountTwos container = (container.count 2 : Nat) := by
    unfold CountTwos
    rw [count_if_two]
    apply wrapInt_of_isInt
    constructor
    · unfold INT_MIN; omega
    · exact h
  refine ⟨key, by decide, ⟨?_, ?_⟩, ?_, by decide, by decide⟩
  · rw [key]; omega
  · rw [key]; exact_mod_cast List.count_le_length 2 container
  · intro reordered hperm
    unfold CountTwos
    rw [count_if_two, count_if_two, hperm.count_eq]

/-- C6 (amended) at the container `{2, 7, 2, 2}`, which holds three 2s. -/
theorem C6_CountTwos_witness :
    ((([2, 7, 2, 2] : List Int).count 2 : Nat) : Int) ≤ INT_MAX ∧
      CountTwos [2, 7, 2, 2] = 3 :=
  ⟨by decide, (C6_CountTwos [2, 7, 2, 2] (by decide)).1⟩

/-! ## `factorial` -/

theorem factorial_le_one {n : Int} (h : n ≤ 1) : factorial n = 1 := by
  rw [factorial, if_pos h]

theorem factorial_gt_one {n : Int} (h : 1 < n) :
    factorial n = wrapInt (n * factorial (n - 1)) := by
  rw [factorial, if_neg (by omega)]

theorem prod_Icc_succ (n : Int) (h : 0 ≤ n) :
    ∏ i in Finset.Icc (1 : Int) (n + 1), i = (n + 1) * ∏ i in Finset.Icc (1 : Int) n, i := by
  have hins : Finset.Icc (1 : Int) (n + 1) = insert (n + 1) (Finset.Icc 1 n) := by
    ext x; simp; omega
  rw [hins, Finset.prod_insert (by simp)]

theorem prod_Icc_bounds (k : Nat) (hk : k ≤ 12) :
    1 ≤ ∏ i in Finset.Icc (1 : Int) k, i ∧ ∏ i in Finset.Icc (1 : Int) k, i ≤ 479001600 := by
  interval_cases k <;> decide

theorem factorial_eq_prod (k : Nat) (hk : k ≤ 12) :
    factorial k = ∏ i in Finset.Icc (1 : Int) k, i := by
  induction k with
  | zero => rw [factorial_le_one (by simp)]; rfl
  | succ m ih =>
    rcases Nat.eq_zero_or_pos m with rfl | hm
    · rw [factorial_le_one (by simp)]; rfl
    · have hgt : (1 : Int) < ((m + 1 : Nat) : Int) := by omega
      have hb := prod_Icc_bounds (m + 1) hk
      rw [factorial_gt_one hgt]
      push_cast at hb ⊢
      rw [add_sub_cancel_right, ih (by omega), ← prod_Icc_succ m (by omega)]
      apply wrapInt_of_isInt
      unfold isInt INT_MIN INT_MAX
      omega

/-- C7: `factorial` is a total function (its recursion is well founded, so
`factorial(n)` terminates for every `int n`). For every `int n` up to 12,
the arguments whose product fits in `int`, it returns the product of the
integers `1..n`, which is the empty product 1 when `n <= 1`, negative `n`
included; `factorial(5) == 120`; and for every `n > 1`, `factorial(n)` is
the `int` product `n * factorial(n - 1)`, which up to 12 is the exact
product. -/
theorem C7_factorial (n : Int) (hn : isInt n) :
    (n ≤ 12 → factorial n = ∏ i in Finset.Icc (1 : Int) n, i) ∧
      (n ≤ 1 → factorial n = 1) ∧
      factorial 5 = 120 ∧
      (1 < n → factorial n = wrapInt (n * factorial (n - 1))) ∧
      (1 < n → n ≤ 12 → factorial n = n * factorial (n - 1)) := by
  have hprod : n ≤ 12 → factorial n = ∏ i in Finset.Icc (1 : Int) n, i := by
    intro h12
    rcases le_or_lt n 0 with hneg | hpos
    · rw [factorial_le_one (by omega), Finset.Icc_eq_empty (by omega), Finset.prod_empty]
    · obtain ⟨k, rfl⟩ := Int.eq_ofNat_of_zero_le (le_of_lt hpos)
      exact factorial_eq_prod k (by omega)
  refine ⟨hprod, fun h1 => factorial_le_one h1, ?_, fun h1 => factorial_gt_one h1, ?_⟩
  · have h5 := factorial_eq_prod 5 (by omega)
    rw [show ((5 : Nat) : Int) = 5 from rfl] at h5
    rw [h5]; decide
  · intro h1 h12
    obtain ⟨k, rfl⟩ := Int.eq_ofNat_of_zero_le (by omega : 0 ≤ n)
    obtain ⟨m, rfl⟩ : ∃ m, k = m + 1 := ⟨k - 1, by omega⟩
    have hm := factorial_eq_prod m (by omega)
    rw [hprod h12]
    push_cast
    rw [add_sub_cancel_right, hm, prod_Icc_succ m (by omega)]

/-- C7 at `n = 12`, the largest argument whose factorial fits in `int`. -/
theorem C7_factorial_witness :
    isInt 12 ∧ factorial 12 = 479001600 ∧ factorial 12 = 12 * factorial 11 :=
  ⟨by decide,
    ((C7_factorial 12 (by decide)).1 (by decide)).trans (by decide),
    (C7_factorial 12 (by decide)).2.2.2.2 (by decide) (by decide)⟩

/-! ## Move semantics -/

/-- C1: for every `std::vector<int> vec`, after
`std::vector<int> vec1 = std::move(vec)` the moved-from `vec` is empty and
`vec1` holds exactly the elements `vec` held before, in the same order, so
that `vec1.size()` is the old `vec.size()`; on `{1,2,3,4}` the three checks
of the test pass. -/
theorem C1_vector_move (initial : List Int) :
    (moveSubcase initial).vec.empty = true ∧
      (moveSubcase initial).vec1.elems = initial ∧
      (moveSubcase initial).vec1.size = (VectorInt.mk initial).size ∧
      (moveSubcase [1, 2, 3, 4]).checks = [true, true, true] := by
  refine ⟨rfl, rfl, rfl, by decide⟩

/-! ## Forwarding references -/

theorem category_callF_eq (e : Expr) :
    (Expr.callF e).category = if e.category = .lvalue then .lvalue else .xvalue := by
  cases h : e.category <;>
    simp [Expr.category, h, deduceForwarding, f, my_forward, addRRef, callCategory]

theorem typeOfCallF_eq (e : Expr) :
    typeOfCallF e = ⟨e.obj, e.cv, if e.category = .lvalue then .lref else .rref⟩ := by
  cases h : e.category <;>
    simp [typeOfCallF, h, deduceForwarding, f, my_forward, addRRef]

theorem wrapper_eq (e : Expr) :
    wrapper e = A10Ctor.select e.obj e.cv (if e.category = .lvalue then .lvalue else .xvalue) := by
  cases h : e.category <;>
    simp [wrapper, h, deduceForwarding, my_forward, addRRef, callCategory]

/-- C2, as stated, fails: for `const A10 ca;` the argument `std::move(ca)` is
an rvalue (an xvalue of type `const A10`), `T` is deduced as `const A10`,
the parameter of `A10(A10&&)` cannot bind to a `const A10`, and
`wrapper(std::move(ca))` runs the copy constructor, not the move
constructor. -/
theorem C2_forwarding_counterexample :
    (Expr.move (.variable ⟨.A10, .const, .none⟩)).obj = .A10 ∧
      (Expr.move (.variable ⟨.A10, .const, .none⟩)).category.isRvalue = true ∧
      wrapper (.move (.variable ⟨.A10, .const, .none⟩)) = some .copy ∧
      wrapper (.move (.variable ⟨.A10, .const, .none⟩)) ≠ some .move := by
  decide

/-- C2, amended: the template `f(T&& t)`, which returns `std::forward<T>(t)`
as `decltype(auto)`, preserves the value category of its argument under the
reference-collapsing rules: for an lvalue argument of type `cv A` the type
of `f(arg)` is `cv A&`, so `int&` for every lvalue of type `int` (a variable
declared `int`, `int&` or `int&&`); for an rvalue argument it is `cv A&&`,
so `int&&` for a literal and for `std::move(z)` and `BB&&` for `BB{}`.
`wrapper(arg)` runs the copy constructor of `A10` for an lvalue of type
`A10` or `const A10`, and the move constructor for an rvalue of type `A10`
that is not `const`; for a `const A10` rvalue it runs the copy constructor. -/
theorem C2_forwarding (arg : Expr) :
    (∀ (A : ObjType) (cv : CV),
        addLRef ⟨A, cv, .lref⟩ = ⟨A, cv, .lref⟩ ∧ addRRef ⟨A, cv, .lref⟩ = ⟨A, cv, .lref⟩ ∧
        addLRef ⟨A, cv, .rref⟩ = ⟨A, cv, .lref⟩ ∧ addRRef ⟨A, cv, .rref⟩ = ⟨A, cv, .rref⟩) ∧
      (arg.category = .lvalue →
        typeOfCallF arg = ⟨arg.obj, arg.cv, .lref⟩ ∧ (Expr.callF arg).category = .lvalue) ∧
      (arg.category.isRvalue = true →
        typeOfCallF arg = ⟨arg.obj, arg.cv, .rref⟩ ∧
        (Expr.callF arg).category.isRvalue = true) ∧
      (arg.obj = .int → arg.cv = .none → arg.category = .lvalue →
        typeOfCallF arg = ⟨.int, .none, .lref⟩) ∧
      (arg.obj = .int → arg.cv = .none → arg.category.isRvalue = true →
        typeOfCallF arg = ⟨.int, .none, .rref⟩) ∧
      (∀ declared : Ref,
        typeOfCallF (.variable ⟨.int, .none, declared⟩) = ⟨.int, .none, .lref⟩) ∧
      typeOfCallF (.temporary .int .none) = ⟨.int, .none, .rref⟩ ∧
      typeOfCallF (.move (.variable ⟨.int, .none, .rref⟩)) = ⟨.int, .none, .rref⟩ ∧
      typeOfCallF (.temporary .BB .none) = ⟨.BB, .none, .rref⟩ ∧
      (arg.obj = .A10 → arg.cv.isVolatile = false → arg.category = .lvalue →
        wrapper arg = some .copy) ∧
      (arg.obj = .A10 → arg.cv = .none → arg.category.isRvalue = true →
        wrapper arg = some .move) ∧
      (arg.obj = .A10 → arg.cv = .const → arg.category.isRvalue = true →
        wrapper arg = some .copy) ∧
      forwardingTemplateChecks = [true, true, true, true, true, true, true] ∧
      stdForwardTest = some ["moved", "copied", "moved"] := by
  have hrv : arg.category.isRvalue = true → ¬ arg.category = .lvalue := by
    intro h hl
    rw [hl] at h
    exact Bool.false_ne_true h
  refine ⟨fun A cv => ⟨rfl, rfl, rfl, rfl⟩, ?_, ?_, ?_, ?_, fun declared => rfl, rfl, rfl,
    rfl, ?_, ?_, ?_, by decide, by decide⟩
  · intro h
    exact ⟨by rw [typeOfCallF_eq, if_pos h], by rw [category_callF_eq, if_pos h]⟩
  · intro h
    exact ⟨by rw [typeOfCallF_eq, if_neg (hrv h)],
      by rw [category_callF_eq, if_neg (hrv h)]; rfl⟩
  · intro ho hc h
    rw [typeOfCallF_eq, if_pos h, ho, hc]
  · intro ho hc h
    rw [typeOfCallF_eq, if_neg (hrv h), ho, hc]
  · intro ho hv h
    rw [wrapper_eq, if_pos h, ho]
    simp [A10Ctor.select, hv]
  · intro ho hc h
    rw [wrapper_eq, if_neg (hrv h), ho, hc]
    rfl
  · intro ho hc h
    rw [wrapper_eq, if_neg (hrv h), ho, hc]
    rfl

/-- C2 (amended) at the variable `z` declared `int&&` and at a variable `a`
declared `A10`: the name `z` is an lvalue and `f(z)` has the type `int&`,
`std::move(z)` is an rvalue and `f(std::move(z))` has the type `int&&`;
`wrapper(a)` copies and `wrapper(std::move(a))` moves. -/
theorem C2_forwarding_witness :
    (Expr.variable ⟨.int, .none, .rref⟩).category = .lvalue ∧
      typeOfCallF (.variable ⟨.int, .none, .rref⟩) = ⟨.int, .none, .lref⟩ ∧
      (Expr.move (.variable ⟨.int, .none, .rref⟩)).category.isRvalue = true ∧
      typeOfCallF (.move (.variable ⟨.int, .none, .rref⟩)) = ⟨.int, .none, .rref⟩ ∧
      wrapper (.variable ⟨.A10, .none, .none⟩) = some .copy ∧
      wrapper (.move (.variable ⟨.A10, .none, .none⟩)) = some .move :=
  ⟨rfl, (C2_forwarding (.variable ⟨.int, .none, .rref⟩)).2.2.2.1 rfl rfl rfl, rfl,
    (C2_forwarding (.move (.variable ⟨.int, .none, .rref⟩))).2.2.2.2.1 rfl rfl rfl,
    (C2_forwarding (.variable ⟨.A10, .none, .none⟩)).2.2.2.2.2.2.2.2.2.1 rfl rfl rfl,
    (C2_forwarding (.move (.variable ⟨.A10, .none, .none⟩))).2.2.2.2.2.2.2.2.2.2.1
      rfl rfl rfl⟩

/-! ## `std::unique_ptr` -/

theorem roundHalfEven_error (q : ℚ) : |(roundHalfEven q : ℚ) - q| ≤ 1 / 2 := by
  have hlo := Int.floor_le q
  have hhi := Int.lt_floor_add_one q
  unfold roundHalfEven
  rw [abs_le]
  simp only
  split_ifs with ha hb hc <;> push_cast <;> constructor <;> linarith

theorem exponent_le (q : ℚ) (k : ℤ) (hk : -1022 ≤ k) (hq0 : q ≠ 0)
    (hq : |q| < 2 ^ (k + 1)) : exponent q ≤ k := by
  unfold exponent
  apply max_le _ hk
  have hpos : 0 < |q| := abs_pos.mpr hq0
  have hlog := (Int.lt_zpow_iff_log_lt (b := 2) (by norm_num) (x := k + 1) hpos).mp
    (by exact_mod_cast hq)
  omega

/-- Rounding to `double` moves a value below `2^(k+1)` by at most half a
unit in the last place, `2^(k-53)`. -/
theorem roundDouble_error (q : ℚ) (k : ℤ) (hk : -1022 ≤ k) (hq : |q| < 2 ^ (k + 1)) :
    |roundDouble q - q| ≤ 2 ^ (k - 53) := by
  by_cases hq0 : q = 0
  · subst hq0
    have hzero : roundDouble 0 = 0 := by simp [roundDouble, roundHalfEven]
    rw [hzero]; simp; positivity
  · have he := exponent_le q k hk hq0 hq
    unfold roundDouble
    simp only
    set ulp : ℚ := 2 ^ (exponent q - 52) with hulp
    have hpos : 0 < ulp := by positivity
    have herr := roundHalfEven_error (q / ulp)
    have heq : (roundHalfEven (q / ulp) : ℚ) * ulp - q
        = ((roundHalfEven (q / ulp) : ℚ) - q / ulp) * ulp := by
      field_simp
    rw [heq, abs_mul, abs_of_pos hpos]
    have hle : ulp ≤ 2 ^ (k - 52) := by
      rw [hulp]
      exact zpow_le_zpow_right₀ (by norm_num) (by omega)
    have hhalf : (2 : ℚ) ^ (k - 53) = 1 / 2 * 2 ^ (k - 52) := by
      rw [show k - 52 = (k - 53) + 1 by ring, zpow_add_one₀ (by norm_num)]
      ring
    rw [hhalf]
    exact mul_le_mul herr hle hpos.le (by norm_num)

/-- The `double` that `tempCelsius * 1.8 + 32` evaluates to is within 1/10
of the exact value `9t/5 + 32`, for `t` below `2^32`. -/
theorem celsius_error (t : Nat) (ht : t < 2 ^ 32) :
    |roundDouble (roundDouble (roundDouble t * roundDouble (9 / 5)) + roundDouble 32)
      - (9 * (t : ℚ) / 5 + 32)| < 1 / 10 := by
  have hT0 : (0 : ℚ) ≤ t := Nat.cast_nonneg t
  have hT1 : (t : ℚ) ≤ 4294967295 := by
    have hle : t ≤ 4294967295 := by omega
    exact_mod_cast hle
  set a := roundDouble t with ha
  set c := roundDouble (9 / 5) with hc
  set b := roundDouble 32 with hb
  have ea : |a - t| ≤ 2 ^ ((31 : ℤ) - 53) :=
    roundDouble_error t 31 (by norm_num) (by rw [abs_of_nonneg hT0]; norm_num; linarith)
  have ec : |c - 9 / 5| ≤ 2 ^ ((0 : ℤ) - 53) :=
    roundDouble_error (9 / 5) 0 (by norm_num) (by norm_num [abs_of_nonneg])
  have eb : |b - 32| ≤ 2 ^ ((5 : ℤ) - 53) :=
    roundDouble_error 32 5 (by norm_num) (by norm_num [abs_of_nonneg])
  norm_num at ea ec eb
  rw [abs_le] at ea ec eb
  have hac : |a * c| < 2 ^ ((32 : ℤ) + 1) := by
    rw [abs_mul]
    have h1 : |a| ≤ 4294967296 := by rw [abs_le]; constructor <;> linarith
    have h2 : |c| ≤ 19 / 10 := by rw [abs_le]; constructor <;> linarith
    calc |a| * |c| ≤ 4294967296 * (19 / 10) := mul_le_mul h1 h2 (abs_nonneg _) (by norm_num)
      _ < 2 ^ ((32 : ℤ) + 1) := by norm_num
  set p := roundDouble (a * c) with hp
  have ep : |p - a * c| ≤ 2 ^ ((32 : ℤ) - 53) :=
    roundDouble_error (a * c) 32 (by norm_num) hac
  norm_num at ep hac
  rw [abs_le] at ep
  rw [abs_lt] at hac
  have hpb : |p + b| < 2 ^ ((33 : ℤ) + 1) := by
    norm_num
    rw [abs_lt]; constructor <;> linarith
  have es : |roundDouble (p + b) - (p + b)| ≤ 2 ^ ((33 : ℤ) - 53) :=
    roundDouble_error (p + b) 33 (by norm_num) hpb
  norm_num at es
  rw [abs_le] at es
  have hbil : |a * c - 9 * (t : ℚ) / 5| ≤ 1 / 1000000 := by
    have hsplit : a * c - 9 * (t : ℚ) / 5 = a * (c - 9 / 5) + 9 / 5 * (a - t) := by ring
    rw [hsplit]
    have h1 : |a * (c - 9 / 5)| ≤ 4294967296 * (1 / 9007199254740992) := by
      rw [abs_mul]
      exact mul_le_mul (by rw [abs_le]; constructor <;> linarith)
        (by rw [abs_le]; constructor <;> linarith) (abs_nonneg _) (by norm_num)
    have h2 : |9 / 5 * (a - t)| ≤ 9 / 5 * (1 / 4194304) := by
      rw [abs_mul, abs_of_pos (by norm_num : (0 : ℚ) < 9 / 5)]
      exact mul_le_mul_of_nonneg_left (by rw [abs_le]; constructor <;> linarith)
        (by norm_num)
    calc |a * (c - 9 / 5) + 9 / 5 * (a - t)|
        ≤ |a * (c - 9 / 5)| + |9 / 5 * (a - t)| := abs_add _ _
      _ ≤ 4294967296 * (1 / 9007199254740992) + 9 / 5 * (1 / 4194304) := add_le_add h1 h2
      _ ≤ 1 / 1000000 := by norm_num
  rw [abs_le] at hbil
  rw [abs_lt]
  constructor <;> linarith

/-- The exact value `9t/5 + 32` plus one half is an integer plus an odd
number of tenths. -/
theorem fahrenheit_split (t : Nat) :
    ∃ r : Int, 1 ≤ r ∧ r ≤ 9 ∧
      (9 * (t : ℚ) / 5 + 32) + 1 / 2 = (((18 * (t : Int) + 325) / 10 : Int) : ℚ) + r / 10 := by
  obtain ⟨n, r, h1, h9, hn, hnr⟩ : ∃ n r : Int, 1 ≤ r ∧ r ≤ 9 ∧
      (18 * (t : Int) + 325) / 10 = n ∧ 18 * (t : Int) + 325 = 10 * n + r :=
    ⟨(18 * (t : Int) + 325) / 10, (18 * (t : Int) + 325) % 10, by omega, by omega, rfl,
      by omega⟩
  have hcast : 18 * (t : ℚ) + 325 = 10 * (n : ℚ) + (r : ℚ) := by exact_mod_cast hnr
  refine ⟨r, h1, h9, ?_⟩
  rw [hn]
  linarith

theorem floor_of_split (x : ℚ) (n r : Int) (h1 : 1 ≤ r) (h9 : r ≤ 9)
    (hx : x + 1 / 2 = n + r / 10) (s : ℚ) (hs : |s - x| < 1 / 10) :
    ⌊s + 1 / 2⌋ = n := by
  have h1q : (1 : ℚ) ≤ r := by exact_mod_cast h1
  have h9q : (r : ℚ) ≤ 9 := by exact_mod_cast h9
  rw [abs_lt] at hs
  rw [Int.floor_eq_iff]
  constructor <;> linarith

theorem round_fahrenheit (t : Nat) :
    round (9 * (t : ℚ) / 5 + 32) = (18 * (t : Int) + 325) / 10 := by
  obtain ⟨r, h1, h9, hx⟩ := fahrenheit_split t
  rw [round_eq]
  exact floor_of_split _ _ r h1 h9 hx _ (by simp)

theorem celsius_value (t : Nat) (ht : t < 2 ^ 32) :
    _celsius t = some ((18 * (t : Int) + 325) / 10) := by
  obtain ⟨r, h1, h9, hx⟩ := fahrenheit_split t
  have herr := celsius_error t ht
  have hx0 : (0 : ℚ) ≤ 9 * (t : ℚ) / 5 + 32 := by positivity
  set s := roundDouble (roundDouble (roundDouble t * roundDouble (9 / 5)) + roundDouble 32)
    with hs
  have hfloor : ⌊s + 1 / 2⌋ = (18 * (t : Int) + 325) / 10 :=
    floor_of_split _ _ r h1 h9 hx s herr
  have hs0 : 0 ≤ s := by
    have hT0 : (0 : ℚ) ≤ t := Nat.cast_nonneg t
    rw [abs_lt] at herr
    linarith
  unfold _celsius llround
  rw [← hs]
  simp only [roundHalfAway, if_pos hs0, hfloor]
  rw [if_pos]
  unfold LLONG_MIN LLONG_MAX
  constructor <;> omega

/-- C8: for every unsigned integer literal value `t` below `2^32`,
`t_celsius` returns the integer nearest to the Fahrenheit value `9t/5 + 32`,
which is `llround` of that exact value; the result is not a rounding tie
(it is within 2/5 of the exact value), the fractional part of `9t/5` being
one of 0, 1/5, 2/5, 3/5, 4/5; `24_celsius == 75` and `0_celsius == 32`. -/
theorem C8_celsius (t : Nat) (ht : t < 2 ^ 32) :
    _celsius t = some (round (9 * (t : ℚ) / 5 + 32)) ∧
      _celsius t = llround (9 * (t : ℚ) / 5 + 32) ∧
      |((round (9 * (t : ℚ) / 5 + 32) : Int) : ℚ) - (9 * (t : ℚ) / 5 + 32)| ≤ 2 / 5 ∧
      Int.fract (9 * (t : ℚ) / 5) ∈ ({0, 1 / 5, 2 / 5, 3 / 5, 4 / 5} : Set ℚ) ∧
      _celsius 24 = some 75 ∧ _celsius 0 = some 32 := by
  obtain ⟨r, h1, h9, hx⟩ := fahrenheit_split t
  have hval := celsius_value t ht
  have hround := round_fahrenheit t
  have hx0 : (0 : ℚ) ≤ 9 * (t : ℚ) / 5 + 32 := by positivity
  have h1q : (1 : ℚ) ≤ r := by exact_mod_cast h1
  have h9q : (r : ℚ) ≤ 9 := by exact_mod_cast h9
  refine ⟨by rw [hval, hround], ?_, ?_, ?_, ?_, ?_⟩
  · have hfloor : ⌊(9 * (t : ℚ) / 5 + 32) + 1 / 2⌋ = (18 * (t : Int) + 325) / 10 :=
      floor_of_split _ _ r h1 h9 hx _ (by simp)
    rw [hval]
    unfold llround
    simp only [roundHalfAway, if_pos hx0, hfloor]
    rw [if_pos]
    unfold LLONG_MIN LLONG_MAX
    constructor <;> omega
  · rw [hround, abs_le]
    constructor <;> linarith
  · obtain ⟨q, k, hk0, hk5, hqk⟩ :
        ∃ q k : Int, 0 ≤ k ∧ k < 5 ∧ 9 * (t : Int) = 5 * q + k :=
      ⟨9 * (t : Int) / 5, 9 * (t : Int) % 5, by omega, by omega, by omega⟩
    have hcast : 9 * (t : ℚ) = 5 * (q : ℚ) + (k : ℚ) := by exact_mod_cast hqk
    have hk0q : (0 : ℚ) ≤ k := by exact_mod_cast hk0
    have hk5q : (k : ℚ) < 5 := by exact_mod_cast hk5
    have hfract : Int.fract (9 * (t : ℚ) / 5) = (k : ℚ) / 5 := by
      rw [Int.fract_eq_iff]
      refine ⟨by positivity, by linarith, q, ?_⟩
      linarith
    rw [hfract]
    interval_cases k <;> simp
  · rw [celsius_value 24 (by norm_num)]; rfl
  · rw [celsius_value 0 (by norm_num)]; rfl

/-- C8 at `100_celsius`, the boiling point of water: 212. -/
theorem C8_celsius_witness :
    100 < 2 ^ 32 ∧ _celsius 100 = some 212 :=
  ⟨by norm_num, (C8_celsius 100 (by norm_num)).1.trans
    (by rw [round_fahrenheit]; rfl)⟩

end CppStdTest
